import Mathlib

/-!
Shallow embedding of the pack resolution and installation engine of the
`packs` CLI (`internal/commands/get.go`, plus the API client wrapper in the
`api` package).  Pure string manipulation is translated directly; process
and network effects (the `gh` subprocess, raw HTTP fetches, the terminal
check, the filesystem) are explicit oracle parameters or explicit state.

String primitives are defined structurally over `String.data` so that every
definition evaluates inside the kernel; they coincide with the Go standard
library functions used by the source on the ASCII inputs in scope.
-/

namespace Packs

/-- Split a character list at every occurrence of `c`
(the semantics of Go `strings.Split` on a one-character separator). -/
def splitChar (c : Char) : List Char → List (List Char)
  | [] => [[]]
  | a :: rest =>
    let r := splitChar c rest
    if a = c then [] :: r
    else
      match r with
      | g :: gs => (a :: g) :: gs
      | [] => [[a]]

/-- Go `strings.Split(s, c)` for a one-character separator. -/
def strSplitChar (s : String) (c : Char) : List String :=
  (splitChar c s.data).map String.mk

/-- Join a list of strings with a separator (Go `strings.Join`). -/
def joinSep (sep : String) : List String → String
  | [] => ""
  | [a] => a
  | a :: rest => a ++ sep ++ joinSep sep rest

/-- Go `strings.SplitN(s, c, 3)` for a one-character separator: at most
three parts, the last part keeping any remaining separators. -/
def goSplitN3 (s : String) (c : Char) : List String :=
  match strSplitChar s c with
  | a :: b :: rest =>
    if rest = [] then [a, b] else [a, b, joinSep (String.mk [c]) rest]
  | xs => xs

/-- Does `s` start with `pre`?  (Go `strings.HasPrefix`, structurally on
the character lists.) -/
def charsLead : List Char → List Char → Bool
  | _, [] => true
  | [], _ :: _ => false
  | a :: as, b :: bs => decide (a = b) && charsLead as bs

/-- Go `strings.HasPrefix s pre`. -/
def leadsWith (s pre : String) : Bool :=
  charsLead s.data pre.data

/-- Go string slicing `s[n:]` (ASCII inputs, so bytes = characters). -/
def strDrop (s : String) (n : Nat) : String :=
  String.mk (s.data.drop n)

/-- Split at the first occurrence of `c`: `some (before, after)`, both
excluding the separator (Go `strings.Index` plus slicing). -/
def breakAtChar (c : Char) : List Char → Option (List Char × List Char)
  | [] => none
  | a :: rest =>
    if a = c then some ([], rest)
    else (breakAtChar c rest).map (fun p => (a :: p.1, p.2))

/-- Go `path/filepath.Base` on slash-separated paths: strip trailing
slashes, then keep the last slash-separated element. -/
def filepathBase (path : String) : String :=
  if path = "" then "."
  else
    let p := (path.data.reverse.dropWhile (fun c => decide (c = '/'))).reverse
    if p = [] then "/"
    else String.mk ((splitChar '/' p).getLastD p)

/-- Go `filepath.Join` on the two-element calls made by `get.go`.  `Join`
drops empty elements and cleans the result; on the already-clean components
produced in this flow cleaning is the identity, so the join is a plain
separator-concatenation. -/
def filepathJoin (a b : String) : String :=
  if a = "" then b else if b = "" then a else a ++ "/" ++ b

/-! ## Content fetching (`get.go`) -/

/-- Which fetch mechanism an attempt goes through: the authenticated
external `gh` tool, or the unauthenticated raw-content HTTP endpoint. -/
inductive Mech where
  | tool : Mech
  | raw : Mech
deriving DecidableEq, Repr

/-- Oracles for the effectful fetch mechanisms of `get.go`.
`ghRun apiPath = some out` models the `gh api <apiPath>` subprocess
exiting with code 0 and standard output `out` (`cmd.Output()` with
`err == nil`); `none` models a non-zero exit.
`rawGet url = some body` models `http.Get url` answering HTTP 200 with
body `body`; `none` collapses the transport error, non-200 status and
body read error cases, each of which makes the source try the next
filename. -/
structure GhEnv where
  ghInstalled : Bool
  ghRun : String → Option String
  rawGet : String → Option String

/-- The `gh api` path built by `ghGetContent` (get.go:259-265). -/
def ghApiPath (user repo path file : String) : String :=
  if path ≠ "" then
    "/repos/" ++ user ++ "/" ++ repo ++ "/contents/" ++ path ++ "/" ++ file
  else
    "/repos/" ++ user ++ "/" ++ repo ++ "/contents/" ++ file

/-- `ghGetContent` (get.go:259-275): run `gh api` on the contents path and
return its standard output whenever the tool exits with code 0.  There is
no emptiness check on the output. -/
def ghGetContent (env : GhEnv) (user repo path file : String) : Option String :=
  env.ghRun (ghApiPath user repo path file)

/-- The raw-content URL built in the fallback loop of `getFromGitHub`
(get.go:161-169); the default branch is assumed to be `main`. -/
def rawUrl (user repo path file : String) : String :=
  if path ≠ "" then
    "https://raw.githubusercontent.com/" ++ user ++ "/" ++ repo ++ "/main/" ++ path ++ "/" ++ file
  else
    "https://raw.githubusercontent.com/" ++ user ++ "/" ++ repo ++ "/main/" ++ file

/-- The fixed candidate-filename list of `getFromGitHub` (get.go:148). -/
def contentFiles : List String := ["SKILL.md", "CONTEXT.md", "PROMPT.md"]

/-- A `for`-loop with early return on first success, instrumented with the
list of elements actually attempted (in order).  Both loops of
`getFromGitHub` are instances of this shape. -/
def firstRun {α : Type} (t : α → Option String) : List α → Option String × List α
  | [] => (none, [])
  | a :: rest =>
    match t a with
    | some c => (some c, [a])
    | none =>
      let r := firstRun t rest
      (r.1, a :: r.2)

/-- The two sequential fallback loops of `getFromGitHub` (get.go:150-184):
when the `gh` tool is installed, try each candidate filename through it
and return on the first exit-code-0 run; otherwise (or when all tool
attempts fail) try each candidate filename through the raw endpoint.
The second component records every attempt actually made, in order. -/
def fetchGitHubLoops (env : GhEnv) (user repo path : String) :
    Option String × List (Mech × String) :=
  let gh :=
    if env.ghInstalled then
      firstRun (fun f => ghGetContent env user repo path f) contentFiles
    else (none, [])
  match gh.1 with
  | some c => (some c, gh.2.map (fun f => (Mech.tool, f)))
  | none =>
    let rw := firstRun (fun f => env.rawGet (rawUrl user repo path f)) contentFiles
    (rw.1, gh.2.map (fun f => (Mech.tool, f)) ++ rw.2.map (fun f => (Mech.raw, f)))

/-- One attempt of the fetch matrix: what a single (mechanism, filename)
candidate returns for the given reference. -/
def attemptResult (env : GhEnv) (user repo path : String) :
    Mech × String → Option String
  | (Mech.tool, f) => ghGetContent env user repo path f
  | (Mech.raw, f) => env.rawGet (rawUrl user repo path f)

/-- The planned attempt order stated by the spec: every candidate filename
through the tool (when installed), then every candidate filename through
the raw endpoint. -/
def plannedAttempts (ghInstalled : Bool) : List (Mech × String) :=
  (if ghInstalled then contentFiles.map (fun f => (Mech.tool, f)) else [])
    ++ contentFiles.map (fun f => (Mech.raw, f))

/-- Error values of the engine; each constructor corresponds to one
`fmt.Errorf` site of `get.go` and `message` renders its exact text. -/
inductive GetErr where
  | invalidRef (ref : String) : GetErr
  | notFound (ref : String) : GetErr
  | registryNotFound (name version : String) : GetErr
  | alreadyExists (dir : String) : GetErr
deriving DecidableEq, Repr

/-- The exact error strings produced by `get.go` (lines 130, 186, 203, 108). -/
def GetErr.message : GetErr → String
  | .invalidRef ref =>
    "invalid GitHub reference: " ++ ref ++ "\nExpected format: @user/repo or @user/repo/path"
  | .notFound ref =>
    "pack not found: " ++ ref ++ "\nTried: SKILL.md, CONTEXT.md, PROMPT.md"
  | .registryNotFound name version =>
    "pack not found in registry: " ++ name ++ "@" ++ version
      ++ "\n\nTry GitHub direct: packs get @user/repo/" ++ name
  | .alreadyExists dir =>
    "pack already exists: " ++ dir ++ "\nUse --force to overwrite"

/-- `getFromGitHub` (get.go:126-187): parse the `user/repo[/path]`
reference with `strings.SplitN(ref, "/", 3)`, fail with the
invalid-reference error when fewer than two segments are present, derive
the pack name from the path basename (or the repo name), then run the
fallback loops.  Also returns the attempt trace. -/
def getFromGitHub (env : GhEnv) (ref : String) :
    Except GetErr (String × String) × List (Mech × String) :=
  match goSplitN3 ref '/' with
  | [user, repo] =>
    let r := fetchGitHubLoops env user repo ""
    match r.1 with
    | some c => (.ok (c, repo), r.2)
    | none => (.error (.notFound ref), r.2)
  | [user, repo, path] =>
    let name := if path ≠ "" then filepathBase path else repo
    let r := fetchGitHubLoops env user repo path
    match r.1 with
    | some c => (.ok (c, name), r.2)
    | none => (.error (.notFound ref), r.2)
  | _ => (.error (.invalidRef ref), [])

/-- The name/version split of `getFromRegistry` (get.go:190-196): split at
the first `@`; without an `@` the version defaults to `"latest"`. -/
def splitNameVersion (pack : String) : String × String :=
  match breakAtChar '@' pack.data with
  | none => (pack, "latest")
  | some (n, v) => (String.mk n, String.mk v)

/-- `getFromRegistry` (get.go:189-207).  The registry RPC is not issued
(the source carries a `TODO: Connect to packs.sh API`); instead the pack
is fetched through the GitHub path against the fallback repository
namespace `tunajam/packs-registry/packs/<name>`, and the version is used
only in the error message. -/
def getFromRegistry (env : GhEnv) (pack : String) :
    Except GetErr (String × String) × List (Mech × String) :=
  let nv := splitNameVersion pack
  let registryRef := "tunajam/packs-registry/packs/" ++ nv.1
  match getFromGitHub env registryRef with
  | (.ok (c, _), tr) => (.ok (c, nv.1), tr)
  | (.error _, tr) => (.error (.registryNotFound nv.1 nv.2), tr)

/-! ## Filesystem model -/

/-- Explicit filesystem state: the set of existing directories and the
existing files with their contents. -/
structure FS where
  dirs : List String
  files : List (String × String)

/-- Go `dirExists` (get.go:244-247): `os.Stat` succeeds and reports a
directory. -/
def dirExists (fs : FS) (p : String) : Bool :=
  fs.dirs.any (fun q => decide (q = p))

/-- Go `fileExists` (get.go:249-252): `os.Stat` succeeds and reports a
non-directory. -/
def fileExists (fs : FS) (p : String) : Bool :=
  fs.files.any (fun e => decide (e.1 = p))

/-- The bare `os.Stat(packDir); err == nil` existence check of
`runGet` (get.go:107): the path exists as a directory or as a file. -/
def statExists (fs : FS) (p : String) : Bool :=
  dirExists fs p || fileExists fs p

/-- All the slash-boundary ancestors of a path, innermost last
(`a/b/c ↦ [a, a/b, a/b/c]`); these are the directories
`os.MkdirAll` guarantees to exist afterwards. -/
def pathAncestors (p : String) : List String :=
  let comps := strSplitChar p '/'
  (List.range comps.length).map (fun k => joinSep "/" (comps.take (k + 1)))

/-- `os.MkdirAll` (get.go:112): recursively and idempotently create the
directory and its missing ancestors.  (The empty string, produced as the
first "ancestor" of an absolute path, is not a directory.) -/
def mkdirAll (fs : FS) (p : String) : FS :=
  { fs with dirs := fs.dirs ++ (pathAncestors p).filter (fun q => !(decide (q = ""))) }

/-- `os.WriteFile` (get.go:118): create or truncate the single file `p`
with content `c`. -/
def writeFile (fs : FS) (p : String) (c : String) : FS :=
  { fs with files := (p, c) :: fs.files.filter (fun e => !(decide (e.1 = p))) }

/-- Content of the file at `p`, when it exists. -/
def fileContent (fs : FS) (p : String) : Option String :=
  (fs.files.find? (fun e => decide (e.1 = p))).map (fun e => e.2)

/-- `detectAgentSkillsDir` (get.go:209-237): probe, in order, for the
Claude marker directory, the workspace markers, the Codex marker and the
Cursor marker, falling back to the generic `~/.packs/skills`. -/
def detectAgentSkillsDir (fs : FS) (home : String) : String :=
  if dirExists fs (filepathJoin home ".claude") then
    filepathJoin (filepathJoin home ".claude") "skills"
  else if dirExists fs "skills" || fileExists fs "AGENTS.md" || fileExists fs "SOUL.md" then
    "skills"
  else if dirExists fs (filepathJoin home ".codex") then
    filepathJoin (filepathJoin home ".codex") "skills"
  else if dirExists fs (filepathJoin home ".cursor") then
    filepathJoin (filepathJoin home ".cursor") "skills"
  else
    filepathJoin (filepathJoin home ".packs") "skills"

/-! ## The `get` command -/

/-- The whole world one `packs get` invocation runs in.  `registryGet`
embeds the registry RPC binding `api.Client.Get` (the `api` package,
`Client.Get`): `registryGet name version` is the `content` field the
registry would return for that name and version.  `envVars` is the
process environment.  Both are part of the world precisely so that
theorems can state whether the `get` flow consults them. -/
structure World where
  ghEnv : GhEnv
  registryGet : String → String → Option String
  envVars : String → Option String
  isTerminalStdout : Bool
  home : String
  fs : FS

/-- How a reference is routed after normalization. -/
inductive SourceKind where
  | registry : SourceKind
  | githubDirect : SourceKind
deriving DecidableEq, Repr

/-- The reference normalization and routing of `runGet` (get.go:66-82):
a leading `@` is rewritten to the `gh:` prefix, then a `gh:` reference is
routed to the GitHub path (with the prefix stripped) and anything else to
the registry path.  Total: no input string is rejected here. -/
def classifyRef (pack : String) : SourceKind × String :=
  let p := if leadsWith pack "@" then "gh:" ++ strDrop pack 1 else pack
  if leadsWith p "gh:" then (SourceKind.githubDirect, strDrop p 3)
  else (SourceKind.registry, p)

/-- The fetch portion of `runGet` (get.go:66-86), factored: route the
reference and fetch its content, yielding `(content, packName)`. -/
def fetchPack (w : World) (pack : String) : Except GetErr (String × String) :=
  match classifyRef pack with
  | (SourceKind.githubDirect, ref) => (getFromGitHub w.ghEnv ref).1
  | (SourceKind.registry, p) => (getFromRegistry w.ghEnv p).1

/-- The install-path resolution of `runGet` (get.go:97-101): the explicit
output directory when one was given, else the detected agent skills
directory. -/
def resolveInstallPath (fs : FS) (home : String) (outputDir : String) : String :=
  if outputDir = "" then detectAgentSkillsDir fs home else outputDir

/-- Observable outcome of one `runGet` invocation. -/
inductive Outcome where
  | printedContent (content : String) : Outcome
  | installed (packName packDir : String) : Outcome
  | failed (e : GetErr) : Outcome
deriving DecidableEq, Repr

/-- `runGet` (get.go:66-124): fetch the pack; when standard output is not
a terminal, no output directory was requested and the install flag is
unset, print the content; otherwise resolve the install path, fail when
the pack directory already exists and the force flag is unset, else
create the directory chain and write `SKILL.md`.  Returns the outcome
together with the resulting filesystem. -/
def runGet (w : World) (pack outputDir : String) (install force : Bool) :
    Outcome × FS :=
  match fetchPack w pack with
  | .error e => (.failed e, w.fs)
  | .ok (content, packName) =>
    if w.isTerminalStdout = false ∧ outputDir = "" ∧ install = false then
      (.printedContent content, w.fs)
    else
      let installPath := resolveInstallPath w.fs w.home outputDir
      let packDir := filepathJoin installPath packName
      if statExists w.fs packDir = true ∧ force = false then
        (.failed (.alreadyExists packDir), w.fs)
      else
        let fs1 := mkdirAll w.fs packDir
        let skillPath := filepathJoin packDir "SKILL.md"
        let fs2 := writeFile fs1 skillPath content
        (.installed packName packDir, fs2)

/-! ## HTTP client configurations (for the timeout claim) -/

/-- A client-side HTTP timeout configuration: `some n` bounds every call
at `n` seconds, `none` leaves calls unbounded. -/
structure HttpClientConfig where
  timeoutSeconds : Option Nat
deriving DecidableEq, Repr

/-- The API client construction `api.New` (the `api` package) wraps an
`http.Client` with `Timeout: 30 * time.Second`. -/
def registryRpcClient : HttpClientConfig := { timeoutSeconds := some 30 }

/-- The raw-content fallback of `getFromGitHub` (get.go:171) calls
`http.Get`, i.e. Go's `http.DefaultClient`, whose zero `Timeout` means no
client-side bound. -/
def rawFallbackClient : HttpClientConfig := { timeoutSeconds := none }

/-- Every HTTP client configuration used anywhere in the resolve-and-fetch
sequence: the registry RPC binding and the raw-content fallback. -/
def resolveFetchClients : List HttpClientConfig :=
  [registryRpcClient, rawFallbackClient]

/-- The environment-variable documentation block of the `config` command
(`ConfigCmd`'s long help text): it documents `PACKS_SKILLS_DIR` as an
override for the skills directory. -/
def configCmdEnvHelp : String :=
  "ENVIRONMENT VARIABLES:\n  PACKS_REGISTRY    Override registry URL\n  PACKS_SKILLS_DIR  Override skills directory\n  PACKS_NO_TELEMETRY=1  Disable telemetry"

/-! ## Spec-side definitions (for the refinement claims) -/

/-- Modelled from the spec (claim C9's wording): the write destination is
the explicit output directory when given, else the first matching probe of
the fixed marker cascade — `~/.claude` directory, then a workspace
`./skills` directory or `AGENTS.md`/`SOUL.md` file, then `~/.codex`, then
`~/.cursor` — with generic fallback `~/.packs/skills`.  (`~` is the home
directory; `./skills` is the relative path `skills`.) -/
def specResolvedDir (fs : FS) (home : String) (requestedOutputDir : String) : String :=
  if requestedOutputDir ≠ "" then requestedOutputDir
  else if dirExists fs (home ++ "/.claude") then home ++ "/.claude/skills"
  else if dirExists fs "skills" || fileExists fs "AGENTS.md" || fileExists fs "SOUL.md" then
    "skills"
  else if dirExists fs (home ++ "/.codex") then home ++ "/.codex/skills"
  else if dirExists fs (home ++ "/.cursor") then home ++ "/.cursor/skills"
  else home ++ "/.packs/skills"

/-! ## Helper lemmas -/

theorem firstRun_cons {α : Type} (t : α → Option String) (a : α) (xs : List α) :
    firstRun t (a :: xs) =
      (match t a with
       | some c => (some c, [a])
       | none => ((firstRun t xs).1, a :: (firstRun t xs).2)) := rfl

theorem firstRun_cons_some {α : Type} (t : α → Option String) (a : α) (xs : List α)
    (c : String) (h : t a = some c) : firstRun t (a :: xs) = (some c, [a]) := by
  rw [firstRun_cons, h]

theorem firstRun_cons_none {α : Type} (t : α → Option String) (a : α) (xs : List α)
    (h : t a = none) :
    firstRun t (a :: xs) = ((firstRun t xs).1, a :: (firstRun t xs).2) := by
  rw [firstRun_cons, h]

theorem firstRun_none_trace {α : Type} (t : α → Option String) (xs : List α)
    (h : (firstRun t xs).1 = none) : (firstRun t xs).2 = xs := by
  induction xs with
  | nil => rfl
  | cons a rest ih =>
    cases hta : t a with
    | some c => rw [firstRun_cons_some t a rest c hta] at h; exact absurd h (by simp)
    | none =>
      rw [firstRun_cons_none t a rest hta] at h ⊢
      simpa using ih h

theorem firstRun_none_all {α : Type} (t : α → Option String) (xs : List α)
    (h : (firstRun t xs).1 = none) : ∀ a ∈ xs, t a = none := by
  induction xs with
  | nil => intro a ha; exact absurd ha (by simp)
  | cons a rest ih =>
    cases hta : t a with
    | some c => rw [firstRun_cons_some t a rest c hta] at h; exact absurd h (by simp)
    | none =>
      rw [firstRun_cons_none t a rest hta] at h
      intro b hb
      rcases List.mem_cons.1 hb with hb | hb
      · rw [hb]; exact hta
      · exact ih h b hb

theorem firstRun_append_some {α : Type} (t : α → Option String) (xs ys : List α)
    (c : String) (h : (firstRun t xs).1 = some c) :
    firstRun t (xs ++ ys) = (some c, (firstRun t xs).2) := by
  induction xs with
  | nil => exact absurd h (by simp [firstRun])
  | cons a rest ih =>
    cases hta : t a with
    | some d =>
      rw [firstRun_cons_some t a rest d hta] at h
      have hd : d = c := by simpa using h
      subst hd
      rw [List.cons_append, firstRun_cons_some t a (rest ++ ys) d hta,
        firstRun_cons_some t a rest d hta]
    | none =>
      rw [firstRun_cons_none t a rest hta] at h
      rw [List.cons_append, firstRun_cons_none t a (rest ++ ys) hta, ih h,
        firstRun_cons_none t a rest hta]

theorem firstRun_append_none {α : Type} (t : α → Option String) (xs ys : List α)
    (h : (firstRun t xs).1 = none) :
    firstRun t (xs ++ ys) = ((firstRun t ys).1, xs ++ (firstRun t ys).2) := by
  induction xs with
  | nil => simp
  | cons a rest ih =>
    cases hta : t a with
    | some c => rw [firstRun_cons_some t a rest c hta] at h; exact absurd h (by simp)
    | none =>
      rw [firstRun_cons_none t a rest hta] at h
      rw [List.cons_append, firstRun_cons_none t a (rest ++ ys) hta, ih h]
      simp

theorem firstRun_map {α β : Type} (t : α → Option String) (g : β → α) (xs : List β) :
    firstRun t (xs.map g) =
      ((firstRun (fun b => t (g b)) xs).1,
        ((firstRun (fun b => t (g b)) xs).2).map g) := by
  induction xs with
  | nil => rfl
  | cons b rest ih =>
    cases htb : t (g b) with
    | some c =>
      rw [List.map_cons, firstRun_cons_some t (g b) (rest.map g) c htb,
        firstRun_cons_some (fun b => t (g b)) b rest c htb]
      rfl
    | none =>
      rw [List.map_cons, firstRun_cons_none t (g b) (rest.map g) htb, ih,
        firstRun_cons_none (fun b => t (g b)) b rest htb]
      rfl

theorem firstRun_init {α : Type} (t : α → Option String) (xs : List α) :
    ∃ rest, (firstRun t xs).2 ++ rest = xs := by
  induction xs with
  | nil => exact ⟨[], rfl⟩
  | cons a rest ih =>
    cases hta : t a with
    | some c => exact ⟨rest, by rw [firstRun_cons_some t a rest c hta]; simp⟩
    | none =>
      obtain ⟨tail, htail⟩ := ih
      exact ⟨tail, by rw [firstRun_cons_none t a rest hta]; simpa using htail⟩

theorem firstRun_some_split {α : Type} (t : α → Option String) (xs : List α)
    (c : String) (h : (firstRun t xs).1 = some c) :
    ∃ pre a, (firstRun t xs).2 = pre ++ [a]
      ∧ (∀ b ∈ pre, t b = none) ∧ t a = some c := by
  induction xs with
  | nil => exact absurd h (by simp [firstRun])
  | cons a rest ih =>
    cases hta : t a with
    | some d =>
      rw [firstRun_cons_some t a rest d hta] at h ⊢
      have hd : d = c := by simpa using h
      subst hd
      exact ⟨[], a, rfl, by simp, hta⟩
    | none =>
      rw [firstRun_cons_none t a rest hta] at h ⊢
      obtain ⟨pre, b, hsplit, hpre, hb⟩ := ih h
      refine ⟨a :: pre, b, by simp [hsplit], ?_, hb⟩
      intro x hx
      rcases List.mem_cons.1 hx with hx | hx
      · rw [hx]; exact hta
      · exact hpre x hx

/-- The two sequential loops of `getFromGitHub` behave exactly as one
first-success-wins pass over the planned attempt list. -/
theorem fetchGitHubLoops_eq_firstRun (env : GhEnv) (u r p : String) :
    fetchGitHubLoops env u r p =
      firstRun (attemptResult env u r p) (plannedAttempts env.ghInstalled) := by
  obtain ⟨gi, ghr, rawg⟩ := env
  have hraw : (fun f => rawg (rawUrl u r p f))
      = (fun f => attemptResult ⟨gi, ghr, rawg⟩ u r p (Mech.raw, f)) := rfl
  have htool : (fun f => ghGetContent ⟨gi, ghr, rawg⟩ u r p f)
      = (fun f => attemptResult ⟨gi, ghr, rawg⟩ u r p (Mech.tool, f)) := rfl
  cases gi with
  | false =>
    simp only [fetchGitHubLoops, plannedAttempts, Bool.false_eq_true, if_false,
      List.nil_append, List.map_nil]
    rw [firstRun_map (attemptResult ⟨false, ghr, rawg⟩ u r p) (fun f => (Mech.raw, f))
      contentFiles]
    rfl
  | true =>
    simp only [fetchGitHubLoops, plannedAttempts, if_true]
    cases hgh : (firstRun (fun f => ghGetContent ⟨true, ghr, rawg⟩ u r p f) contentFiles).1 with
    | some c =>
      have h1 : (firstRun (attemptResult ⟨true, ghr, rawg⟩ u r p)
          (contentFiles.map (fun f => (Mech.tool, f)))).1 = some c := by
        rw [firstRun_map (attemptResult ⟨true, ghr, rawg⟩ u r p) (fun f => (Mech.tool, f))
          contentFiles, ← htool]
        exact hgh
      rw [firstRun_append_some (attemptResult ⟨true, ghr, rawg⟩ u r p) _ _ c h1,
        firstRun_map (attemptResult ⟨true, ghr, rawg⟩ u r p) (fun f => (Mech.tool, f))
          contentFiles, ← htool, hgh]
    | none =>
      have h1 : (firstRun (attemptResult ⟨true, ghr, rawg⟩ u r p)
          (contentFiles.map (fun f => (Mech.tool, f)))).1 = none := by
        rw [firstRun_map (attemptResult ⟨true, ghr, rawg⟩ u r p) (fun f => (Mech.tool, f))
          contentFiles, ← htool]
        exact hgh
      have htr := firstRun_none_trace
        (fun f => ghGetContent ⟨true, ghr, rawg⟩ u r p f) contentFiles hgh
      rw [firstRun_append_none (attemptResult ⟨true, ghr, rawg⟩ u r p) _ _ h1,
        firstRun_map (attemptResult ⟨true, ghr, rawg⟩ u r p) (fun f => (Mech.raw, f))
          contentFiles, htr]
      rfl

theorem fileContent_mkdirAll (fs : FS) (p q : String) :
    fileContent (mkdirAll fs p) q = fileContent fs q := rfl

theorem dirs_writeFile (fs : FS) (p c : String) :
    (writeFile fs p c).dirs = fs.dirs := rfl

theorem fileContent_writeFile_same (fs : FS) (p c : String) :
    fileContent (writeFile fs p c) p = some c := by
  simp [fileContent, writeFile]

theorem find?_filter_other (l : List (String × String)) (p q : String) (h : q ≠ p) :
    List.find? (fun e => decide (e.1 = q)) (l.filter (fun e => !(decide (e.1 = p))))
      = List.find? (fun e => decide (e.1 = q)) l := by
  induction l with
  | nil => rfl
  | cons e tl ih =>
    by_cases hep : e.1 = p
    · have hq : decide (e.1 = q) = false := by
        simp only [decide_eq_false_iff_not]
        rw [hep]
        exact fun hpq => h hpq.symm
      rw [List.filter_cons_of_neg (by simp [hep]), ih,
        List.find?_cons_of_neg _ (by simp [hq])]
    · rw [List.filter_cons_of_pos (by simp [hep])]
      by_cases heq : e.1 = q
      · rw [List.find?_cons_of_pos _ (by simp [heq]),
          List.find?_cons_of_pos _ (by simp [heq])]
      · rw [List.find?_cons_of_neg _ (by simp [heq]),
          List.find?_cons_of_neg _ (by simp [heq]), ih]

theorem fileContent_writeFile_other (fs : FS) (p c q : String) (h : q ≠ p) :
    fileContent (writeFile fs p c) q = fileContent fs q := by
  have hq : decide ((p, c).1 = q) = false := by
    simp only [decide_eq_false_iff_not]
    exact fun hpq => h hpq.symm
  simp only [fileContent, writeFile]
  rw [List.find?_cons_of_neg _ (by simp_all), find?_filter_other fs.files p q h]

theorem mem_mkdirAll_iff (fs : FS) (p q : String) (h : q ∉ pathAncestors p) :
    q ∈ (mkdirAll fs p).dirs ↔ q ∈ fs.dirs := by
  simp only [mkdirAll, List.mem_append, List.mem_filter]
  constructor
  · intro hq
    rcases hq with hq | hq
    · exact hq
    · exact absurd hq.1 h
  · intro hq
    exact Or.inl hq

theorem join_eq (a b : String) (ha : a ≠ "") (hb : b ≠ "") :
    filepathJoin a b = a ++ "/" ++ b := by
  simp [filepathJoin, ha, hb]

theorem append_ne_empty (a b : String) (hb : b ≠ "") : a ++ b ≠ "" := by
  intro h
  apply hb
  have hd := congrArg String.data h
  rw [String.data_append] at hd
  have hb' : b.data = [] := (List.append_eq_nil.mp hd).2
  apply String.ext
  rw [hb']

theorem append4_assoc (a b c d e : String) :
    (((a ++ b) ++ c) ++ d) ++ e = a ++ (b ++ (c ++ (d ++ e))) := by
  rw [String.append_assoc, String.append_assoc, String.append_assoc]

theorem join_home1 (home m : String) (hh : home ≠ "") (hm : m ≠ "") :
    filepathJoin home m = home ++ ("/" ++ m) := by
  rw [join_eq home m hh hm, String.append_assoc]

theorem join_home2 (home m : String) (hh : home ≠ "") (hm : m ≠ "") :
    filepathJoin (filepathJoin home m) "skills" = home ++ ("/" ++ (m ++ "/skills")) := by
  rw [join_eq home m hh hm, join_eq _ "skills" (by
      rw [String.append_assoc]
      exact append_ne_empty home ("/" ++ m) (append_ne_empty "/" m hm)) (by decide),
    append4_assoc]
  rfl

/-! ## Concrete worlds used by the claim theorems and witnesses -/

/-- A world for exercising the registry path: the registry would answer
`Get("commit-message", "1.0.0")` with its own content, while the GitHub
raw endpoint holds different content for the fallback repository path. -/
def c1World : World :=
  { ghEnv :=
      { ghInstalled := false
        ghRun := fun _ => none
        rawGet := fun url =>
          if url = "https://raw.githubusercontent.com/tunajam/packs-registry/main/packs/commit-message/SKILL.md"
          then some "GITHUB CONTENT" else none }
    registryGet := fun name version =>
      if name = "commit-message" ∧ version = "1.0.0" then some "REGISTRY CONTENT" else none
    envVars := fun _ => none
    isTerminalStdout := true
    home := "/home/u"
    fs := ⟨[], []⟩ }

/-- A GitHub environment in which the `gh` tool always exits 0 with empty
output while the raw endpoint would serve real content. -/
def c5Env : GhEnv :=
  { ghInstalled := true
    ghRun := fun _ => some ""
    rawGet := fun _ => some "REAL CONTENT" }

/-- A minimal GitHub environment in which every fetch attempt fails. -/
def c6Env : GhEnv :=
  { ghInstalled := false, ghRun := fun _ => none, rawGet := fun _ => none }

/-- A minimal world in which every fetch attempt fails. -/
def c6World : World :=
  { ghEnv := c6Env
    registryGet := fun _ _ => none
    envVars := fun _ => none
    isTerminalStdout := true
    home := "/home/u"
    fs := ⟨[], []⟩ }

/-- A world with the documented skills-directory override variable set,
no agent markers on disk, and a GitHub pack available. -/
def c7World : World :=
  { ghEnv :=
      { ghInstalled := false
        ghRun := fun _ => none
        rawGet := fun url =>
          if url = "https://raw.githubusercontent.com/o/r/main/p/SKILL.md"
          then some "C" else none }
    registryGet := fun _ _ => none
    envVars := fun k => if k = "PACKS_SKILLS_DIR" then some "/custom/skills" else none
    isTerminalStdout := true
    home := "/home/u"
    fs := ⟨[], []⟩ }

/-! ## Claim theorems -/

/-- C1: the claim says a registry reference issues a get-by-name-and-version
call to the Registry Client and installs exactly the registry's `content`
field.  The code does not: `getFromRegistry` never consults the registry
binding (the result is invariant under any `registryGet`), routes the
reference to the GitHub path against `tunajam/packs-registry/packs/<name>`,
and for `"commit-message@1.0.0"` delivers the GitHub raw content, not the
content the registry would have returned. -/
theorem c1_registry_client_not_consulted :
    fetchPack c1World "commit-message@1.0.0" = .ok ("GITHUB CONTENT", "commit-message")
    ∧ (getFromRegistry c1World.ghEnv "commit-message@1.0.0").2 = [(Mech.raw, "SKILL.md")]
    ∧ c1World.registryGet "commit-message" "1.0.0" = some "REGISTRY CONTENT"
    ∧ (∀ rg : String → String → Option String,
        fetchPack { c1World with registryGet := rg } "commit-message@1.0.0"
          = fetchPack c1World "commit-message@1.0.0")
    ∧ "GITHUB CONTENT" ≠ "REGISTRY CONTENT" :=
  ⟨rfl, rfl, rfl, fun _ => rfl, by decide⟩

/-- C6: reference normalization and routing is total — `"gh:onlyowner"`
parses into a GitHub-direct descriptor with remainder `"onlyowner"` — and
the under-two-segments failure surfaces only inside the fetch step, as the
invalid-reference error (with no fetch attempt made), whose message states
the expected syntax. -/
theorem c6_parse_total_deferred_error (env : GhEnv) (w : World) :
    classifyRef "gh:onlyowner" = (SourceKind.githubDirect, "onlyowner")
    ∧ getFromGitHub env "onlyowner" = (.error (.invalidRef "onlyowner"), [])
    ∧ fetchPack w "gh:onlyowner" = .error (.invalidRef "onlyowner")
    ∧ (GetErr.invalidRef "onlyowner").message
        = "invalid GitHub reference: onlyowner\nExpected format: @user/repo or @user/repo/path" :=
  ⟨rfl, rfl, rfl, rfl⟩

theorem c6_parse_total_deferred_error_witness :
    fetchPack c6World "gh:onlyowner" = .error (.invalidRef "onlyowner") :=
  (c6_parse_total_deferred_error c6Env c6World).2.2.1

/-- C7: the claim (and the `config` command's own help text) says the
skills-directory environment variable overrides the install destination.
The code never reads it: with `PACKS_SKILLS_DIR=/custom/skills` set and no
explicit output directory, the destination resolves to `~/.packs/skills`,
not to the override, and `runGet` is invariant under any process
environment whatsoever. -/
theorem c7_skills_dir_env_ignored :
    c7World.envVars "PACKS_SKILLS_DIR" = some "/custom/skills"
    ∧ (∃ pre suf, configCmdEnvHelp
        = pre ++ "PACKS_SKILLS_DIR  Override skills directory" ++ suf)
    ∧ resolveInstallPath c7World.fs c7World.home "" = "/home/u/.packs/skills"
    ∧ resolveInstallPath c7World.fs c7World.home "" ≠ "/custom/skills"
    ∧ (runGet c7World "gh:o/r/p" "" false false).1
        = .installed "p" "/home/u/.packs/skills/p"
    ∧ (∀ ev : String → Option String,
        runGet { c7World with envVars := ev } "gh:o/r/p" "" false false
          = runGet c7World "gh:o/r/p" "" false false) :=
  ⟨rfl,
   ⟨"ENVIRONMENT VARIABLES:\n  PACKS_REGISTRY    Override registry URL\n  ",
    "\n  PACKS_NO_TELEMETRY=1  Disable telemetry", by decide⟩,
   rfl, by decide, rfl, fun _ => rfl⟩

/-- C8 counterexample: not every HTTP client used in the resolve-and-fetch
sequence carries a bounded client-side timeout — the raw-content fallback
goes through Go's default client, which has none. -/
theorem c8_unbounded_raw_client_cex :
    ¬(resolveFetchClients.all (fun cfg => cfg.timeoutSeconds.isSome) = true) := by
  decide

/-- C8 amended: the registry RPC binding is constructed over a client with
a 30-second timeout, while the unauthenticated raw-content fallback uses
the default HTTP client with no client-side timeout at all. -/
theorem c8_timeouts_as_configured :
    registryRpcClient.timeoutSeconds = some 30
    ∧ rawFallbackClient.timeoutSeconds = none :=
  ⟨rfl, rfl⟩

/-- C2: for every GitHub-direct fetch, the attempts made are exactly one
first-success-wins pass over the planned order — all candidate filenames
through the tool when it is installed, then all through the raw endpoint —
so the attempt trace is an initial segment of that order, every attempt
before the successful one failed, the successful one is the last attempt
made, and the planned order is literally SKILL.md, CONTEXT.md, PROMPT.md
per mechanism. -/
theorem c2_github_fallback_order (env : GhEnv) (u r p : String) :
    fetchGitHubLoops env u r p
      = firstRun (attemptResult env u r p) (plannedAttempts env.ghInstalled)
    ∧ (∃ rest, (fetchGitHubLoops env u r p).2 ++ rest = plannedAttempts env.ghInstalled)
    ∧ (∀ c : String, (fetchGitHubLoops env u r p).1 = some c →
        ∃ pre a, (fetchGitHubLoops env u r p).2 = pre ++ [a]
          ∧ (∀ b ∈ pre, attemptResult env u r p b = none)
          ∧ attemptResult env u r p a = some c)
    ∧ ((fetchGitHubLoops env u r p).1 = none →
        (fetchGitHubLoops env u r p).2 = plannedAttempts env.ghInstalled
          ∧ ∀ b ∈ plannedAttempts env.ghInstalled, attemptResult env u r p b = none)
    ∧ plannedAttempts true =
        [(Mech.tool, "SKILL.md"), (Mech.tool, "CONTEXT.md"), (Mech.tool, "PROMPT.md"),
         (Mech.raw, "SKILL.md"), (Mech.raw, "CONTEXT.md"), (Mech.raw, "PROMPT.md")]
    ∧ plannedAttempts false =
        [(Mech.raw, "SKILL.md"), (Mech.raw, "CONTEXT.md"), (Mech.raw, "PROMPT.md")] := by
  have he := fetchGitHubLoops_eq_firstRun env u r p
  refine ⟨he, ?_, ?_, ?_, by decide, by decide⟩
  · rw [he]
    exact firstRun_init (attemptResult env u r p) (plannedAttempts env.ghInstalled)
  · intro c hc
    rw [he] at hc ⊢
    exact firstRun_some_split (attemptResult env u r p) (plannedAttempts env.ghInstalled) c hc
  · intro hn
    rw [he] at hn ⊢
    exact ⟨firstRun_none_trace _ _ hn, firstRun_none_all _ _ hn⟩

/-- A GitHub environment whose tool is installed but always fails, and
whose raw endpoint serves only `CONTEXT.md` for `o/r/p`. -/
def c2Env : GhEnv :=
  { ghInstalled := true
    ghRun := fun _ => none
    rawGet := fun url =>
      if url = "https://raw.githubusercontent.com/o/r/main/p/CONTEXT.md"
      then some "CTX" else none }

theorem c2_github_fallback_order_witness :
    fetchGitHubLoops c2Env "o" "r" "p" =
      (some "CTX",
       [(Mech.tool, "SKILL.md"), (Mech.tool, "CONTEXT.md"), (Mech.tool, "PROMPT.md"),
        (Mech.raw, "SKILL.md"), (Mech.raw, "CONTEXT.md")]) := by
  have h := (c2_github_fallback_order c2Env "o" "r" "p").1
  rw [h]
  rfl

/-- C5 counterexample: the claim requires a tool attempt to count as a
success only when the output is non-empty, but with a tool that exits 0
producing empty output the fetch accepts the empty string as the content
and terminates the chain at the very first attempt, even though the raw
endpoint held real content. -/
theorem c5_empty_tool_output_accepted_cex :
    getFromGitHub c5Env "o/r/p" = (.ok ("", "p"), [(Mech.tool, "SKILL.md")])
    ∧ attemptResult c5Env "o" "r" "p" (Mech.raw, "SKILL.md") = some "REAL CONTENT" :=
  ⟨rfl, rfl⟩

/-- C5 amended: a tool attempt counts as a success exactly when the tool
invocation returns without error (exit code 0); its output — empty or
not — is accepted as the fetched content and terminates the fallback
chain. -/
theorem c5_tool_success_is_exit_zero (env : GhEnv) (u r p c : String)
    (hgi : env.ghInstalled = true)
    (hrun : ghGetContent env u r p "SKILL.md" = some c) :
    fetchGitHubLoops env u r p = (some c, [(Mech.tool, "SKILL.md")]) := by
  rw [fetchGitHubLoops, hgi]
  have h1 : firstRun (fun f => ghGetContent env u r p f) contentFiles
      = (some c, ["SKILL.md"]) := by
    rw [contentFiles]
    exact firstRun_cons_some _ _ _ c hrun
  simp only [if_true, h1]
  rfl

theorem c5_tool_success_is_exit_zero_witness :
    fetchGitHubLoops c5Env "o" "r" "p" = (some "", [(Mech.tool, "SKILL.md")]) :=
  c5_tool_success_is_exit_zero c5Env "o" "r" "p" "" rfl rfl

/-- C3: whenever standard output is not a terminal, no output directory is
requested and the install flag is unset, a successful fetch is printed and
the filesystem is returned untouched, whatever the force flag and whatever
already exists on disk. -/
theorem c3_piped_prints_no_writes (w : World) (pack : String) (force : Bool)
    (c n : String)
    (hpiped : w.isTerminalStdout = false)
    (hfetch : fetchPack w pack = .ok (c, n)) :
    runGet w pack "" false force = (.printedContent c, w.fs) := by
  rw [runGet, hfetch]
  simp [hpiped]

/-- A piped-output world whose destination pack directory already exists. -/
def c3World : World :=
  { ghEnv :=
      { ghInstalled := false
        ghRun := fun _ => none
        rawGet := fun url =>
          if url = "https://raw.githubusercontent.com/o/r/main/p/SKILL.md"
          then some "C" else none }
    registryGet := fun _ _ => none
    envVars := fun _ => none
    isTerminalStdout := false
    home := "/home/u"
    fs := ⟨["/home/u/.claude", "/home/u/.claude/skills", "/home/u/.claude/skills/p"], []⟩ }

theorem c3_piped_prints_no_writes_witness :
    runGet c3World "gh:o/r/p" "" false false = (.printedContent "C", c3World.fs) :=
  c3_piped_prints_no_writes c3World "gh:o/r/p" false "C" "p" rfl rfl

theorem alreadyExists_message_mentions_force (d : String) :
    ∃ pre suf, (GetErr.alreadyExists d).message = pre ++ "--force" ++ suf := by
  refine ⟨"pack already exists: " ++ d ++ "\nUse ", " to overwrite", ?_⟩
  show "pack already exists: " ++ d ++ "\nUse --force to overwrite"
      = "pack already exists: " ++ d ++ "\nUse " ++ "--force" ++ " to overwrite"
  rw [show ("\nUse --force to overwrite" : String)
      = "\nUse " ++ "--force" ++ " to overwrite" from by decide]
  rw [← String.append_assoc, ← String.append_assoc]

/-- C4: in write-to-disk mode, when the destination pack directory already
exists and the force flag is unset, the run fails with the already-exists
error, whose message suggests `--force`, the filesystem is returned
untouched, and rerunning the same install on the resulting filesystem
produces the identical outcome. -/
theorem c4_already_exists_idempotent (w : World) (pack outputDir : String)
    (install : Bool) (c n : String)
    (hfetch : fetchPack w pack = .ok (c, n))
    (hmode : ¬(w.isTerminalStdout = false ∧ outputDir = "" ∧ install = false))
    (hexists : statExists w.fs
        (filepathJoin (resolveInstallPath w.fs w.home outputDir) n) = true) :
    runGet w pack outputDir install false
      = (.failed (.alreadyExists (filepathJoin (resolveInstallPath w.fs w.home outputDir) n)),
         w.fs)
    ∧ (∃ pre suf,
        (GetErr.alreadyExists
            (filepathJoin (resolveInstallPath w.fs w.home outputDir) n)).message
          = pre ++ "--force" ++ suf)
    ∧ runGet { w with fs := (runGet w pack outputDir install false).2 }
          pack outputDir install false
        = runGet w pack outputDir install false := by
  have hmain : runGet w pack outputDir install false
      = (.failed (.alreadyExists (filepathJoin (resolveInstallPath w.fs w.home outputDir) n)),
         w.fs) := by
    simp only [runGet, hfetch]
    rw [if_neg hmode, if_pos ⟨hexists, by trivial⟩]
  refine ⟨hmain, alreadyExists_message_mentions_force _, ?_⟩
  have h2 : (runGet w pack outputDir install false).2 = w.fs := by rw [hmain]
  rw [h2]

/-- A write-mode world whose explicitly requested destination already
holds the pack directory. -/
def c4World : World :=
  { ghEnv :=
      { ghInstalled := false
        ghRun := fun _ => none
        rawGet := fun url =>
          if url = "https://raw.githubusercontent.com/o/r/main/p/SKILL.md"
          then some "C" else none }
    registryGet := fun _ _ => none
    envVars := fun _ => none
    isTerminalStdout := true
    home := "/home/u"
    fs := ⟨["/dest", "/dest/p"], []⟩ }

theorem c4_already_exists_idempotent_witness :
    runGet c4World "gh:o/r/p" "/dest" false false
      = (.failed (.alreadyExists "/dest/p"), c4World.fs) :=
  (c4_already_exists_idempotent c4World "gh:o/r/p" "/dest" false "C" "p"
    rfl (by simp) rfl).1

/-- C9: the destination directory used by a write-to-disk install is the
explicitly requested output directory when one is given, else the marker
cascade of the claim — `~/.claude` → `~/.claude/skills`; else a workspace
`skills` directory or `AGENTS.md`/`SOUL.md` file → `skills`; else
`~/.codex` → `~/.codex/skills`; else `~/.cursor` → `~/.cursor/skills`;
else the generic `~/.packs/skills` — and every write-mode outcome of
`runGet` names its pack directory inside that resolved destination. -/
theorem c9_destination_resolution (w : World) (pack outputDir : String)
    (install force : Bool) (c n : String)
    (hh : w.home ≠ "") :
    resolveInstallPath w.fs w.home outputDir = specResolvedDir w.fs w.home outputDir
    ∧ (fetchPack w pack = .ok (c, n) →
        ¬(w.isTerminalStdout = false ∧ outputDir = "" ∧ install = false) →
        (runGet w pack outputDir install force).1
            = .failed (.alreadyExists
                (filepathJoin (specResolvedDir w.fs w.home outputDir) n))
          ∨ (runGet w pack outputDir install force).1
            = .installed n (filepathJoin (specResolvedDir w.fs w.home outputDir) n)) := by
  have h1 : resolveInstallPath w.fs w.home outputDir
      = specResolvedDir w.fs w.home outputDir := by
    by_cases hout : outputDir = ""
    · subst hout
      rw [resolveInstallPath, specResolvedDir, detectAgentSkillsDir,
        if_pos (show ("" : String) = "" from rfl),
        if_neg (show ¬(("" : String) ≠ "") from by simp)]
      rw [join_home2 w.home ".claude" hh (by decide),
        join_home2 w.home ".codex" hh (by decide),
        join_home2 w.home ".cursor" hh (by decide),
        join_home2 w.home ".packs" hh (by decide),
        join_home1 w.home ".claude" hh (by decide),
        join_home1 w.home ".codex" hh (by decide),
        join_home1 w.home ".cursor" hh (by decide)]
      rfl
    · rw [resolveInstallPath, specResolvedDir, if_neg hout, if_pos hout]
  refine ⟨h1, ?_⟩
  intro hfetch hmode
  simp only [runGet, hfetch]
  rw [if_neg hmode, h1]
  by_cases hex : statExists w.fs
      (filepathJoin (specResolvedDir w.fs w.home outputDir) n) = true ∧ force = false
  · rw [if_pos hex]
    exact Or.inl rfl
  · rw [if_neg hex]
    exact Or.inr rfl

/-- A world with only the Codex marker directory present. -/
def c9World : World :=
  { ghEnv := c6Env
    registryGet := fun _ _ => none
    envVars := fun _ => none
    isTerminalStdout := true
    home := "/h"
    fs := ⟨["/h/.codex"], []⟩ }

theorem c9_destination_resolution_witness :
    resolveInstallPath c9World.fs c9World.home ""
      = specResolvedDir c9World.fs c9World.home "" :=
  (c9_destination_resolution c9World "x" "" false false "c" "n" (by decide)).1

/-- C10: a successful write-to-disk install creates exactly the directory
chain of the destination pack directory and writes the single file
`SKILL.md` beneath it: the installed file carries the fetched content,
every other file (including files already present in that directory) keeps
its previous content, and directory existence changes only along the
destination path. -/
theorem c10_install_frame (w : World) (pack outputDir : String)
    (install force : Bool) (c n : String)
    (hfetch : fetchPack w pack = .ok (c, n))
    (hmode : ¬(w.isTerminalStdout = false ∧ outputDir = "" ∧ install = false))
    (hfree : ¬(statExists w.fs
        (filepathJoin (resolveInstallPath w.fs w.home outputDir) n) = true
        ∧ force = false)) :
    (runGet w pack outputDir install force).1
      = .installed n (filepathJoin (resolveInstallPath w.fs w.home outputDir) n)
    ∧ fileContent (runGet w pack outputDir install force).2
        (filepathJoin (filepathJoin (resolveInstallPath w.fs w.home outputDir) n)
          "SKILL.md")
      = some c
    ∧ (∀ q : String,
        q ≠ filepathJoin (filepathJoin (resolveInstallPath w.fs w.home outputDir) n)
            "SKILL.md" →
        fileContent (runGet w pack outputDir install force).2 q = fileContent w.fs q)
    ∧ (∀ q : String,
        q ∉ pathAncestors (filepathJoin (resolveInstallPath w.fs w.home outputDir) n) →
        (q ∈ (runGet w pack outputDir install force).2.dirs ↔ q ∈ w.fs.dirs)) := by
  have hrun : runGet w pack outputDir install force
      = (.installed n (filepathJoin (resolveInstallPath w.fs w.home outputDir) n),
         writeFile
           (mkdirAll w.fs (filepathJoin (resolveInstallPath w.fs w.home outputDir) n))
           (filepathJoin (filepathJoin (resolveInstallPath w.fs w.home outputDir) n)
             "SKILL.md")
           c) := by
    simp only [runGet, hfetch]
    rw [if_neg hmode, if_neg hfree]
  rw [hrun]
  refine ⟨rfl, fileContent_writeFile_same _ _ _, ?_, ?_⟩
  · intro q hq
    rw [fileContent_writeFile_other _ _ _ q hq, fileContent_mkdirAll]
  · intro q hq
    rw [dirs_writeFile]
    exact mem_mkdirAll_iff w.fs _ q hq

/-- A world holding an unrelated directory and file that an install must
leave untouched. -/
def c10World : World :=
  { ghEnv :=
      { ghInstalled := false
        ghRun := fun _ => none
        rawGet := fun url =>
          if url = "https://raw.githubusercontent.com/o/r/main/p/SKILL.md"
          then some "C" else none }
    registryGet := fun _ _ => none
    envVars := fun _ => none
    isTerminalStdout := true
    home := "/h"
    fs := ⟨["/h/other"], [("/h/other/KEEP.md", "K")]⟩ }

theorem c10_install_frame_witness :
    (runGet c10World "gh:o/r/p" "" true false).1 = .installed "p" "/h/.packs/skills/p"
    ∧ fileContent (runGet c10World "gh:o/r/p" "" true false).2 "/h/other/KEEP.md"
      = some "K" := by
  have h := c10_install_frame c10World "gh:o/r/p" "" true false "C" "p"
    rfl (by simp) (by decide)
  refine ⟨h.1, ?_⟩
  rw [h.2.2.1 "/h/other/KEEP.md" (by decide)]
  rfl

end Packs
